import Mathlib

/-!
# Shallow embedding of the WARN-notice pipeline

This file embeds the core of the `Labar_Market_WARN` repository
(`scripts/common.py`, `scripts/build_current_year.py`,
`scripts/post_social.py`, `scripts/scrape_ny.py`, `scripts/scrape_ca.py`)
as executable Lean definitions and proves/refutes the specification's
claims about them.

Modelling conventions:
* a CSV row is a `Row` record of nine string fields (the canonical schema);
  a pandas `DataFrame` is a `List Row`, in file/row order;
* `None`/`NaN` cells are modelled with `Option`; a store file on disk is a
  `ReadResult` (`notFound` for a missing file, `parseError` for a file that
  `pd.read_csv` cannot parse, `ok rows` otherwise);
* Python string operations (`str.lower`, `str.strip`, `re.sub`) are embedded
  character-wise over `List Char`.
-/

namespace Warn

/-- Python-`re` whitespace class `\s` restricted to ASCII
(` `, `\t`, `\n`, `\r`, `\x0b`, `\x0c`); the repository's inputs are ASCII
text, so the unicode extension of `\s` is not modelled. -/
def isSpacePy (c : Char) : Bool :=
  c = ' ' || c = '\t' || c = '\n' || c = '\r' ||
  c = Char.ofNat 11 || c = Char.ofNat 12

/-- ASCII lower-casing of one character, embedding `str.lower`.
(Python also lower-cases non-ASCII letters; in `norm_text` every
non-`[a-z0-9\s]` character is folded to a space right after lowering, so for
the properties proved here the ASCII restriction is immaterial.) -/
def pyLowerChar (c : Char) : Char := c.toLower

/-- `[a-z0-9]` membership. -/
def isLowerAlnum (c : Char) : Bool :=
  ('a' ≤ c && c ≤ 'z') || c.isDigit

/-- Embeds `re.sub(r"[^a-z0-9\s]", " ", s)`: any character outside
`[a-z0-9]` and the whitespace class becomes a space. -/
def classChar (c : Char) : Char :=
  if isLowerAlnum c || isSpacePy c then c else ' '

/-- Embeds `re.sub(r"\s+", " ", s)`: every maximal run of whitespace is
replaced by one space.  The boolean flag records whether we are inside a
whitespace run whose single replacement space has already been emitted. -/
def collapseWs : Bool → List Char → List Char
  | _, [] => []
  | inRun, c :: rest =>
      if isSpacePy c then
        if inRun then collapseWs true rest
        else ' ' :: collapseWs true rest
      else c :: collapseWs false rest

/-- Embeds Python `str.strip()` (drop leading and trailing whitespace). -/
def pyStrip (l : List Char) : List Char :=
  ((l.dropWhile isSpacePy).reverse.dropWhile isSpacePy).reverse

/-- Embeds `str.strip()` on `String`. -/
def stripStr (s : String) : String := String.mk (pyStrip s.data)

/-- Embeds `common.norm_text` on a non-`None` string:
lower-case, replace `[^a-z0-9\s]` by spaces, collapse whitespace runs,
strip. -/
def norm_text (s : String) : String :=
  String.mk (pyStrip (collapseWs false (s.data.map (fun c => classChar (pyLowerChar c)))))

/-- Embeds `common.norm_text` at its public boundary, where the argument
may be `None` (`if s is None: return ""`). -/
def norm_text_opt : Option String → String
  | none => ""
  | some s => norm_text s

/-- One canonical CSV row (the nine-column schema shared by all stores).
`employeeCount` is kept as its CSV string form; `build_current_year`
normalizes it through `pd.to_numeric`. -/
structure Row where
  hashId : String
  company : String
  cleanName : String
  noticeDate : String
  effectiveDate : String
  employeeCount : String
  city : String
  state : String
  sourceUrl : String
  deriving DecidableEq, Repr

/-- Result of `pd.read_csv(path, dtype=str)` on a per-source store:
the file may be missing (`FileNotFoundError`), unparseable (e.g.
`pandas.errors.ParserError` / `EmptyDataError`), or readable.
A store read whose `hash_id` column was missing is represented by rows
whose `hashId` field is `""` (the code fills the column with `""`). -/
inductive ReadResult where
  | notFound
  | parseError
  | ok (rows : List Row)
  deriving DecidableEq, Repr

/-- The `try:`-block body of `common.upsert_append_csv` once the existing
store has been read: drop every incoming row whose `hash_id` is already
present, then either return the old store unchanged (nothing new; the file
is not rewritten) or append the surviving rows.  Returns the resulting
store contents and the reported insert count. -/
def upsertOk (dfOld dfNew : List Row) : List Row × Nat :=
  let oldIds := dfOld.map Row.hashId
  let dfN := dfNew.filter (fun r => r.hashId ∉ oldIds)
  if dfN.isEmpty then (dfOld, 0)
  else (dfOld ++ dfN, dfN.length)

/-- Embeds `common.upsert_append_csv`.  Only `FileNotFoundError` is caught
(the batch is then written as a fresh store); any other read failure
escapes the function, modelled as `.error ()`. -/
def upsert_append_csv : ReadResult → List Row → Except Unit (List Row × Nat)
  | .ok dfOld, dfNew => .ok (upsertOk dfOld dfNew)
  | .notFound, dfNew => .ok (dfNew, dfNew.length)
  | .parseError, _ => .error ()

/-! ## `build_current_year.py` — the aggregator -/

/-- Digit value of an ASCII digit. -/
def digitVal (c : Char) : Nat := c.toNat - '0'.toNat

/-- Decimal value of a digit run. -/
def natOfDigits (l : List Char) : Nat :=
  l.foldl (fun a c => a * 10 + digitVal c) 0

/-- Embeds `pd.to_numeric(x, errors="coerce").fillna(0).astype(int)` on one
cell: an optionally signed decimal literal (integer part, optional
fractional part) parses to its integer part (`astype(int)` truncates toward
zero); anything else coerces to `NaN` and then to `0`.
(`to_numeric` also accepts exponent notation, which never occurs in these
stores and is not modelled.) -/
def pyToNumericInt (s : String) : Int :=
  let l := pyStrip s.data
  let (neg, l) : Bool × List Char :=
    match l with
    | '-' :: rest => (true, rest)
    | '+' :: rest => (false, rest)
    | _ => (false, l)
  let intPart := l.takeWhile Char.isDigit
  let rest := l.dropWhile Char.isDigit
  let okFrac : Bool :=
    match rest with
    | [] => true
    | '.' :: fr => fr.all Char.isDigit && (intPart.length + fr.length > 0)
    | _ => false
  if intPart.isEmpty && rest.isEmpty then 0
  else if okFrac then
    let v : Int := Int.ofNat (natOfDigits intPart)
    if neg then -v else v
  else 0

/-- Embeds the per-row effect of `build_current_year.normalize_df`:
`employee_count` is numeric-coerced (then re-serialized as its decimal
string, as `to_csv` would), every other column is `fillna("").astype(str)`
`.str.strip()`-ped.  Missing-column handling (`df[c] = ""`) is represented
by the corresponding field already being `""`. -/
def normalizeRow (r : Row) : Row :=
  { hashId := stripStr r.hashId
    company := stripStr r.company
    cleanName := stripStr r.cleanName
    noticeDate := stripStr r.noticeDate
    effectiveDate := stripStr r.effectiveDate
    employeeCount := toString (pyToNumericInt r.employeeCount)
    city := stripStr r.city
    state := stripStr r.state
    sourceUrl := stripStr r.sourceUrl }

/-- Embeds `build_current_year.normalize_df`: normalize every row, then
drop rows whose (stripped) `company` is empty
(`df[df["company"].str.len() > 0]`). -/
def normalize_df (rows : List Row) : List Row :=
  (rows.map normalizeRow).filter (fun r => r.company ≠ "")

/-- Number of days in a month of the proleptic Gregorian calendar
(as validated by `datetime.date` / `pandas.Timestamp`). -/
def daysInMonth (y m : Nat) : Nat :=
  if m = 2 then (if (y % 4 = 0 && y % 100 ≠ 0) || y % 400 = 0 then 29 else 28)
  else if m = 4 || m = 6 || m = 9 || m = 11 then 30
  else 31

/-- Calendar validity as checked by `datetime.date(y, m, d)`. -/
def validDate (y m d : Nat) : Bool :=
  1 ≤ y && y ≤ 9999 && 1 ≤ m && m ≤ 12 && 1 ≤ d && d ≤ daysInMonth y m

/-- Embeds `pd.to_datetime(s, errors="coerce")` on the date strings that
actually reach the aggregator: every collector writes `notice_date` either
as strict ISO `YYYY-MM-DD` (via `strftime("%Y-%m-%d")`) or as `""`, so the
key is `some` (encoded as `y*10000 + m*100 + d`, order-isomorphic to the
timestamp) exactly on valid ISO dates and `none` (`NaT`) otherwise. -/
def isoDateKey (s : String) : Option Nat :=
  let l := s.data
  let ys := l.takeWhile Char.isDigit
  let r1 := l.dropWhile Char.isDigit
  match r1 with
  | '-' :: r2 =>
    let ms := r2.takeWhile Char.isDigit
    let r3 := r2.dropWhile Char.isDigit
    match r3 with
    | '-' :: r4 =>
      let ds := r4.takeWhile Char.isDigit
      let r5 := r4.dropWhile Char.isDigit
      if ys.length = 4 && (1 ≤ ms.length && ms.length ≤ 2) &&
         (1 ≤ ds.length && ds.length ≤ 2) && r5.isEmpty &&
         validDate (natOfDigits ys) (natOfDigits ms) (natOfDigits ds) then
        some (natOfDigits ys * 10000 + natOfDigits ms * 100 + natOfDigits ds)
      else none
    | _ => none
  | _ => none

/-- The `_nd` sort key of a row (`pd.to_datetime(merged["notice_date"],
errors="coerce")`): `none` is `NaT`. -/
def ndKey (r : Row) : Option Nat := isoDateKey r.noticeDate

/-- `ndKey` with `NaT` mapped to `0`; only ever applied to rows whose key
is `some` (the `NaT` rows are split off before sorting, as pandas'
`nargsort` does). -/
def ndTotal (r : Row) : Nat := (ndKey r).getD 0

/-- Embeds `merged.drop_duplicates(subset=["hash_id"], keep="last")`:
a row survives iff no later row carries the same `hash_id`; survivors keep
their relative order. -/
def dropDupKeepLast : List Row → List Row
  | [] => []
  | r :: rest =>
      if r.hashId ∈ rest.map Row.hashId then dropDupKeepLast rest
      else r :: dropDupKeepLast rest

/-- Embeds `merged.sort_values(by=["_nd"], ascending=False)` (pandas
`nargsort` with `na_position="last"`): the rows with a real timestamp are
ordered by key descending — pandas reverses both the value array and the
final indexer around a stable `argsort`, which preserves the input order of
equal keys, here modelled by a stable insertion sort under the reflexive
total order `ndTotal b ≤ ndTotal a` — and the `NaT` rows follow, in input
order.  (numpy's default `argsort(kind="quicksort")` only guarantees the
stable tie order in its small-array insertion-sort regime; no theorem below
depends on the tie order.) -/
def sortValuesDescNd (rows : List Row) : List Row :=
  let dated := rows.filter (fun r => (ndKey r).isSome)
  let undated := rows.filter (fun r => (ndKey r).isNone)
  List.insertionSort (fun a b => ndTotal b ≤ ndTotal a) dated ++ undated

/-- Embeds the dataframe pipeline of `build_current_year.main`: the
readable, non-empty per-source stores are normalized, concatenated,
de-duplicated by `hash_id` (keep-last) and sorted by `notice_date`
descending with blank dates last; with no parts at all the public dataset
is written empty.  (`read_state_year_csv` returns `None` on any read
failure and such stores are skipped; a skipped store is modelled as an
absent list.) -/
def buildAggregate (stores : List (List Row)) : List Row :=
  let parts := (stores.filter (fun s => ¬ s.isEmpty)).map normalize_df
  if parts.isEmpty then []
  else sortValuesDescNd (dropDupKeepLast parts.flatten)

/-! ## `post_social.py` — the change detector -/

/-- Embeds `post_social.main`'s local `to_int`: `int(str(x).strip())` with
any failure mapped to `0`.  Python `int()` accepts an optional sign and a
non-empty digit run, nothing else. -/
def pyToIntOr0 (s : String) : Int :=
  let l := pyStrip s.data
  match l with
  | '-' :: ds => if ¬ ds.isEmpty && ds.all Char.isDigit then -(Int.ofNat (natOfDigits ds)) else 0
  | '+' :: ds => if ¬ ds.isEmpty && ds.all Char.isDigit then Int.ofNat (natOfDigits ds) else 0
  | ds => if ¬ ds.isEmpty && ds.all Char.isDigit then Int.ofNat (natOfDigits ds) else 0

/-- Embeds `new_rows.sort_values(by="employee_count_int", ascending=False)`
under the same `nargsort` model as `sortValuesDescNd` (the int column has
no `NaN`s, so no split is needed). -/
def sortByCountDesc (rows : List Row) : List Row :=
  List.insertionSort
    (fun a b => pyToIntOr0 b.employeeCount ≤ pyToIntOr0 a.employeeCount) rows

/-- Embeds `post_social.main` from the point where the current public
dataset has been read, as a pure function from the dataset rows and the
previous snapshot (the parsed `history_snapshot.json` id set, `[]` when the
file is missing or corrupt) to the pair (rows notified, snapshot-file id
set after the run).  When the current file is missing the run is a no-op.
The early `return` on an empty diff leaves the snapshot file untouched;
only on a non-empty diff are the up-to-3 largest new rows notified and
`save_current_hashes(current)` executed.  Python's `set(...)` values are
modelled as de-duplicated lists (`List.dedup`); a Python set has no
specified iteration order, so only membership in `current` and in the
returned snapshot is meaningful. -/
def postSocialMain (dfFile : Option (List Row)) (previous : List String) :
    List Row × List String :=
  match dfFile with
  | none => ([], previous)
  | some df =>
    let current := (df.map Row.hashId).dedup
    let newIds := current.filter (fun h => h ∉ previous)
    if newIds.isEmpty then ([], previous)
    else
      let newRows := df.filter (fun r => r.hashId ∈ newIds)
      ((sortByCountDesc newRows).take 3, current)

/-! ## `scrape_ca.py` — header-row detection -/

/-- A raw spreadsheet cell as produced by
`pd.read_excel(..., header=None)`: `none` is `NaN`. -/
def Cell : Type := Option String

/-- A raw sheet: rows of cells. -/
def Sheet : Type := List (List (Option String))

/-- Boolean substring containment, embedding Python's `in` on strings. -/
def listContainsSub (needle : List Char) : List Char → Bool
  | [] => needle.isEmpty
  | c :: rest => needle.isPrefixOf (c :: rest) || listContainsSub needle rest

/-- Embeds
`" ".join([str(x) for x in row.values if pd.notna(x)]).lower()`. -/
def rowSearchText (row : List (Option String)) : List Char :=
  (String.intercalate " " (row.filterMap id)).data.map pyLowerChar

/-- Embeds the header test of `scrape_ca.find_header_and_data`:
`"company" in row_str and "notice" in row_str`. -/
def isHeaderRow (row : List (Option String)) : Bool :=
  listContainsSub "company".data (rowSearchText row) &&
  listContainsSub "notice".data (rowSearchText row)

/-- Embeds `str(x)` as applied by `.astype(str)` to a header cell:
a `NaN` cell renders as `"nan"`. -/
def cellToStr : Option String → String
  | none => "nan"
  | some s => s

/-- Embeds `scrape_ca.find_header_and_data`: scan the first 20 rows for
the first row containing both tokens; if none is found return `none`
(Python: `(None, "Could not find header row ...")`); otherwise return the
stripped header cells and the rows strictly below the header row. -/
def find_header_and_data (df : Sheet) :
    Option (List String × List (List (Option String))) :=
  match (df.take 20).findIdx? isHeaderRow with
  | none => none
  | some i =>
      some (((df.drop i).headD []).map (fun c => stripStr (cellToStr c)),
            df.drop (i + 1))

/-- Embeds the sheet-selection loop of `scrape_ca.main`: sheets are tried
in order and the first one in which `find_header_and_data` succeeds is
kept; if every sheet fails, `df_clean` stays `None` and the run aborts
(`"CRITICAL: No valid data found in any sheet."`). -/
def selectSheet (sheets : List Sheet) :
    Option (List String × List (List (Option String))) :=
  sheets.findSome? find_header_and_data

/-! ## `scrape_ny.py` — `parse_date_any` -/

/-- Full month names recognized by `strptime`'s `%B` (matched
case-insensitively). -/
def monthFull : List (String × Nat) :=
  [("january", 1), ("february", 2), ("march", 3), ("april", 4), ("may", 5),
   ("june", 6), ("july", 7), ("august", 8), ("september", 9), ("october", 10),
   ("november", 11), ("december", 12)]

/-- Abbreviated month names recognized by `strptime`'s `%b`. -/
def monthAbbr : List (String × Nat) :=
  [("jan", 1), ("feb", 2), ("mar", 3), ("apr", 4), ("may", 5), ("jun", 6),
   ("jul", 7), ("aug", 8), ("sep", 9), ("oct", 10), ("nov", 11), ("dec", 12)]

/-- Zero-padded two-digit rendering, as `strftime`'s `%m`/`%d`. -/
def pad2 (n : Nat) : String :=
  if n < 10 then "0" ++ toString n else toString n

/-- Zero-padded four-digit rendering, as `strftime`'s `%Y`. -/
def pad4 (n : Nat) : String :=
  if n < 10 then "000" ++ toString n
  else if n < 100 then "00" ++ toString n
  else if n < 1000 then "0" ++ toString n
  else toString n

/-- `datetime.strftime("%Y-%m-%d")`. -/
def isoOf (y m d : Nat) : String := pad4 y ++ "-" ++ pad2 m ++ "-" ++ pad2 d

/-- `strptime` with format `"%m/%d/Y-part"`, shared by `%m/%d/%Y`
(`yearLen = 4`) and `%m/%d/%y` (`yearLen = 2`).  `strptime` compiles the
format to an anchored regex — `%m`/`%d` match a 1–2-digit run bounded by
the literal `/`, the year directive matches exactly `yearLen` digits, and
any unconverted trailing data fails the parse — and then `datetime.date`
validates the calendar date.  `%y` years `00`–`68` map to `20xx`, `69`–`99`
to `19xx`. -/
def parseSlashFmt (yearLen : Nat) (l : List Char) : Option (Nat × Nat × Nat) :=
  let ms := l.takeWhile Char.isDigit
  let r1 := l.dropWhile Char.isDigit
  match r1 with
  | '/' :: r2 =>
    let ds := r2.takeWhile Char.isDigit
    let r3 := r2.dropWhile Char.isDigit
    match r3 with
    | '/' :: r4 =>
      let ys := r4.takeWhile Char.isDigit
      let r5 := r4.dropWhile Char.isDigit
      let m := natOfDigits ms
      let d := natOfDigits ds
      let yRaw := natOfDigits ys
      let y := if yearLen = 2 then (if yRaw ≤ 68 then 2000 + yRaw else 1900 + yRaw)
               else yRaw
      if (1 ≤ ms.length && ms.length ≤ 2) && (1 ≤ ds.length && ds.length ≤ 2) &&
         ys.length = yearLen && r5.isEmpty &&
         1 ≤ m && m ≤ 12 && 1 ≤ d && d ≤ 31 && validDate y m d then
        some (y, m, d)
      else none
    | _ => none
  | _ => none

/-- `strptime` with format `"%B %d, %Y"` or `"%b %d, %Y"` (month-name
table passed in).  The month directive matches a letter run equal to a
table name (case-insensitively), format whitespace matches a whitespace
run, `%d` a 1–2-digit run bounded by the literal comma, `%Y` exactly four
digits ending the input; `datetime.date` validates the result. -/
def parseNameFmt (table : List (String × Nat)) (l : List Char) :
    Option (Nat × Nat × Nat) :=
  let name := l.takeWhile Char.isAlpha
  let r1 := l.dropWhile Char.isAlpha
  match table.find? (fun p => p.fst.data = name.map pyLowerChar) with
  | none => none
  | some (_, m) =>
    let sp1 := r1.takeWhile isSpacePy
    let r2 := r1.dropWhile isSpacePy
    let ds := r2.takeWhile Char.isDigit
    let r3 := r2.dropWhile Char.isDigit
    match r3 with
    | ',' :: r4 =>
      let sp2 := r4.takeWhile isSpacePy
      let r5 := r4.dropWhile isSpacePy
      let ys := r5.takeWhile Char.isDigit
      let r6 := r5.dropWhile Char.isDigit
      let d := natOfDigits ds
      let y := natOfDigits ys
      if ¬ sp1.isEmpty && (1 ≤ ds.length && ds.length ≤ 2) && ¬ sp2.isEmpty &&
         ys.length = 4 && r6.isEmpty && 1 ≤ d && d ≤ 31 && validDate y m d then
        some (y, m, d)
      else none
    | _ => none

/-- `strptime` with format `"%Y-%m-%d"`: four year digits, then `-`,
1–2 month digits, `-`, 1–2 day digits, end of input, calendar-valid. -/
def parseIsoFmt (l : List Char) : Option (Nat × Nat × Nat) :=
  let ys := l.takeWhile Char.isDigit
  let r1 := l.dropWhile Char.isDigit
  match r1 with
  | '-' :: r2 =>
    let ms := r2.takeWhile Char.isDigit
    let r3 := r2.dropWhile Char.isDigit
    match r3 with
    | '-' :: r4 =>
      let ds := r4.takeWhile Char.isDigit
      let r5 := r4.dropWhile Char.isDigit
      let y := natOfDigits ys
      let m := natOfDigits ms
      let d := natOfDigits ds
      if ys.length = 4 && (1 ≤ ms.length && ms.length ≤ 2) &&
         (1 ≤ ds.length && ds.length ≤ 2) && r5.isEmpty &&
         1 ≤ m && m ≤ 12 && 1 ≤ d && d ≤ 31 && validDate y m d then
        some (y, m, d)
      else none
    | _ => none
  | _ => none

/-- The `for fmt in fmts` cascade of `parse_date_any`: the five formats in
source order, first success wins, rendered back through
`strftime("%Y-%m-%d")`. -/
def tryFormats (l : List Char) : Option String :=
  match parseNameFmt monthFull l with
  | some (y, m, d) => some (isoOf y m d)
  | none =>
  match parseNameFmt monthAbbr l with
  | some (y, m, d) => some (isoOf y m d)
  | none =>
  match parseSlashFmt 4 l with
  | some (y, m, d) => some (isoOf y m d)
  | none =>
  match parseSlashFmt 2 l with
  | some (y, m, d) => some (isoOf y m d)
  | none =>
  match parseIsoFmt l with
  | some (y, m, d) => some (isoOf y m d)
  | none => none

/-- Match `\d{1,2}` followed by the literal `/` at the head of `l`
(greedy on the digit count; at most one width can succeed because the
follower is the non-digit `/`).  Returns the consumed characters and the
remainder. -/
def numSlashAt (l : List Char) : Option (List Char × List Char) :=
  let ds := l.takeWhile Char.isDigit
  match l.dropWhile Char.isDigit with
  | '/' :: rest =>
      if 1 ≤ ds.length && ds.length ≤ 2 then some (ds ++ ['/'], rest) else none
  | _ => none

/-- Match the regex `\d{1,2}/\d{1,2}/\d{2,4}` at the head of `l`
(greedy, as `re` would: the trailing year group takes up to four digits). -/
def matchSlashDateAt (l : List Char) : Option (List Char) := do
  let (a, r1) ← numSlashAt l
  let (b, r2) ← numSlashAt r1
  let ys := r2.takeWhile Char.isDigit
  let y := ys.take 4
  if 2 ≤ y.length then return a ++ b ++ y else none

/-- `re.search(r"(\d{1,2}/\d{1,2}/\d{2,4})", s)`: leftmost match. -/
def searchSlashDate : List Char → Option (List Char)
  | [] => none
  | c :: rest =>
      match matchSlashDateAt (c :: rest) with
      | some m => some m
      | none => searchSlashDate rest

/-- Match the regex `[A-Za-z]{3,9}\s+\d{1,2},\s+\d{4}` at the head of `l`:
a 3–9-letter run followed by whitespace (a longer run cannot match, since
every backtracked follower position holds a letter), whitespace run(s),
1–2 digits bounded by the literal comma, whitespace, then four digits. -/
def matchMonthDateAt (l : List Char) : Option (List Char) :=
  let name := l.takeWhile Char.isAlpha
  let r1 := l.dropWhile Char.isAlpha
  let sp1 := r1.takeWhile isSpacePy
  let r2 := r1.dropWhile isSpacePy
  let ds := r2.takeWhile Char.isDigit
  let r3 := r2.dropWhile Char.isDigit
  match r3 with
  | ',' :: r4 =>
    let sp2 := r4.takeWhile isSpacePy
    let r5 := r4.dropWhile isSpacePy
    let ys := (r5.takeWhile Char.isDigit).take 4
    if (3 ≤ name.length && name.length ≤ 9) && ¬ sp1.isEmpty &&
       (1 ≤ ds.length && ds.length ≤ 2) && ¬ sp2.isEmpty && ys.length = 4 then
      some (name ++ sp1 ++ ds ++ [','] ++ sp2 ++ ys)
    else none
  | _ => none

/-- `re.search(r"([A-Za-z]{3,9}\s+\d{1,2},\s+\d{4})", s)`: leftmost
match. -/
def searchMonthDate : List Char → Option (List Char)
  | [] => none
  | c :: rest =>
      match matchMonthDateAt (c :: rest) with
      | some m => some m
      | none => searchMonthDate rest

/-- One call body of `scrape_ny.parse_date_any`, with the two possible
self-calls reified: `.done r` is `return r`, `.recurse t` is
`return parse_date_any(t)`. -/
inductive DateStep where
  | done (r : String)
  | recurse (t : String)
  deriving DecidableEq, Repr

/-- Embeds one invocation of `scrape_ny.parse_date_any`: empty input
returns `""`; otherwise the input is stripped, en-dashes become hyphens,
whitespace runs collapse to single spaces; the five-format cascade is
tried; failing that, an embedded slash-date or month-name-date substring
is searched for and handed to a recursive call; failing that, `""`. -/
def parseDateAnyStep (s0 : String) : DateStep :=
  if s0 = "" then .done ""
  else
    let l := collapseWs false
      ((pyStrip s0.data).map (fun c => if c = Char.ofNat 0x2013 then '-' else c))
    match tryFormats l with
    | some iso => .done iso
    | none =>
      match searchSlashDate l with
      | some g => .recurse (String.mk g)
      | none =>
        match searchMonthDate l with
        | some g => .recurse (String.mk g)
        | none => .done ""

/-- `parse_date_any` run with a recursion budget (Python's interpreter
enforces one as `sys.getrecursionlimit()`): `none` means the budget was
exhausted without producing a value — in Python, `RecursionError`. -/
def parseDateAnyFuel : Nat → String → Option String
  | 0, _ => none
  | n + 1, s =>
      match parseDateAnyStep s with
      | .done r => some r
      | .recurse t => parseDateAnyFuel n t

/-! ## Concrete example data used by counterexamples and witnesses -/

/-- A stored row with identity `"a"`. -/
def exRowA : Row :=
  ⟨"a", "Alpha Co", "Alpha Co", "2025-01-02", "", "5", "Albany", "NY", "u1"⟩

/-- An incoming row with identity `"b"`. -/
def exRowB : Row :=
  ⟨"b", "Beta Co", "Beta Co", "2025-01-03", "", "7", "Buffalo", "NY", "u2"⟩

/-- A different row that shares identity `"b"` with `exRowB`. -/
def exRowB2 : Row :=
  ⟨"b", "Gamma Co", "Gamma Co", "2025-01-04", "", "9", "Yonkers", "CA", "u3"⟩

/-- A row with an empty (unparseable) `notice_date`. -/
def exRowBlank : Row :=
  ⟨"e", "Empty Date Co", "Empty Date Co", "", "", "3", "Troy", "NY", "u4"⟩

/-- A raw sheet none of whose rows contains both header tokens. -/
def exSheetNoHeader : Sheet :=
  [[some "WARN Report", none], [some "generated for 2025"], [some "d", some "e"]]

/-! # Theorems for the claims -/

/-! ## Shared helper lemmas -/

/-- If every incoming identity is already stored, the upsert leaves the
store untouched and reports zero inserts (the file is not rewritten). -/
theorem upsertOk_of_all_mem (store B : List Row)
    (hmem : ∀ r ∈ B, r.hashId ∈ store.map Row.hashId) :
    upsertOk store B = (store, 0) := by
  simp only [upsertOk]
  have hfilter : B.filter (fun r => r.hashId ∉ store.map Row.hashId) = [] := by
    rw [List.filter_eq_nil_iff]
    intro r hr
    exact fun hdec => (of_decide_eq_true hdec) (hmem r hr)
  rw [hfilter]
  rfl

/-- After an upsert, every identity of the batch is present in the
resulting store. -/
theorem mem_ids_upsertOk (store B : List Row) (r : Row) (hr : r ∈ B) :
    r.hashId ∈ ((upsertOk store B).1).map Row.hashId := by
  simp only [upsertOk]
  by_cases hid : r.hashId ∈ store.map Row.hashId
  · by_cases hE :
        (B.filter (fun x => x.hashId ∉ store.map Row.hashId)).isEmpty = true
    · rw [if_pos hE]
      exact hid
    · rw [if_neg hE]
      simp only [List.map_append, List.mem_append]
      exact Or.inl hid
  · have hfil : r ∈ B.filter (fun x => x.hashId ∉ store.map Row.hashId) :=
      List.mem_filter.mpr ⟨hr, decide_eq_true hid⟩
    have hE : ¬ (B.filter (fun x => x.hashId ∉ store.map Row.hashId)).isEmpty = true := by
      intro hemp
      rw [List.isEmpty_iff] at hemp
      rw [hemp] at hfil
      exact List.not_mem_nil r hfil
    rw [if_neg hE]
    simp only [List.map_append, List.mem_append]
    exact Or.inr (List.mem_map_of_mem Row.hashId hfil)

/-- **C6** (code bug evidence).  `parse_date_any` is not total: on the
date-shaped but calendar-invalid input `"13/13/2020"` every `strptime`
format fails, the embedded-date regex `(\d{1,2}/\d{1,2}/\d{2,4})` then
re-matches the whole input, and the function calls itself with the exact
same argument — an unproductive self-loop, so no recursion budget ever
yields a value (Python raises `RecursionError` instead of returning `""`
as the spec claims). -/
theorem c6_parse_date_any_diverges :
    parseDateAnyStep "13/13/2020" = DateStep.recurse "13/13/2020" ∧
    ∀ fuel : Nat, parseDateAnyFuel fuel "13/13/2020" = none := by
  have hstep : parseDateAnyStep "13/13/2020" = DateStep.recurse "13/13/2020" := by
    decide
  refine ⟨hstep, ?_⟩
  intro fuel
  induction fuel with
  | zero => rfl
  | succ n ih =>
      rw [parseDateAnyFuel, hstep]
      exact ih

/-- **C7** (counterexample).  An unreadable (corrupt) store is *not*
treated as empty: only `FileNotFoundError` is caught, so a parse failure
escapes `upsert_append_csv` and fails the ingestion instead of writing a
fresh store from the batch. -/
theorem c7_counterexample :
    upsert_append_csv ReadResult.parseError [exRowA] = Except.error () ∧
    upsert_append_csv ReadResult.notFound [exRowA] = Except.ok ([exRowA], 1) :=
  ⟨rfl, rfl⟩

/-- **C7 as amended**: only an *absent* store (`FileNotFoundError`) is
treated as empty — the batch is then written as a fresh store and its full
size reported — while an unreadable/corrupt store makes
`upsert_append_csv` raise, failing that ingestion run. -/
theorem c7_missing_store_fresh (dfNew : List Row) :
    upsert_append_csv ReadResult.notFound dfNew =
      Except.ok (dfNew, dfNew.length) ∧
    upsert_append_csv ReadResult.parseError dfNew = Except.error () :=
  ⟨rfl, rfl⟩

/-- **C1** (counterexample).  The merge does *not* de-duplicate within the
incoming batch: a batch repeating the novel identity `"b"` twice leaves the
store containing `"b"` twice, so store identity-uniqueness is not preserved
for internally duplicated batches. -/
theorem c1_counterexample :
    upsert_append_csv (ReadResult.ok [exRowA]) [exRowB, exRowB] =
      Except.ok ([exRowA, exRowB, exRowB], 2) ∧
    ¬ (([exRowA, exRowB, exRowB].filter (fun r => r.hashId == "b")).length ≤ 1) :=
  ⟨by rfl, by decide⟩

/-- **C1 as amended**: `upsert_append_csv` never inserts an identity that
the existing store already holds, so identity-uniqueness of the store is
preserved by every upsert *whose incoming batch is itself duplicate-free by
identity*; there is no de-duplication within the batch. -/
theorem c1_upsert_unique_ids (dfOld dfNew : List Row)
    (hOld : (dfOld.map Row.hashId).Nodup) (hNew : (dfNew.map Row.hashId).Nodup) :
    (((upsertOk dfOld dfNew).1).map Row.hashId).Nodup := by
  unfold upsertOk
  by_cases hE :
      (dfNew.filter (fun r => r.hashId ∉ dfOld.map Row.hashId)).isEmpty = true
  · rw [if_pos hE]
    exact hOld
  · rw [if_neg hE]
    simp only [List.map_append, List.nodup_append]
    refine ⟨hOld, ?_, ?_⟩
    · exact List.Nodup.sublist
        (List.Sublist.map Row.hashId (List.filter_sublist dfNew)) hNew
    · intro x hx hx'
      rcases List.mem_map.mp hx' with ⟨r, hr, hrx⟩
      rcases List.mem_filter.mp hr with ⟨_, hnot⟩
      rw [hrx] at hnot
      exact (of_decide_eq_true hnot) hx

/-- Witness for `c1_upsert_unique_ids` at a concrete store and batch. -/
theorem c1_upsert_unique_ids_witness :
    ([exRowA].map Row.hashId).Nodup ∧
    (((upsertOk [exRowA] [exRowB]).1).map Row.hashId).Nodup :=
  ⟨by decide, c1_upsert_unique_ids [exRowA] [exRowB] (by decide) (by decide)⟩

/-- **C2** (confirmed).  Applying the same batch twice is the same as
applying it once: after an upsert of `dfNew` (into an existing store, first
conjunct, or as the fresh store written when the file was absent, second
conjunct), re-upserting `dfNew` returns the store unchanged and reports
zero newly inserted records. -/
theorem c2_upsert_idempotent (dfOld dfNew : List Row) :
    upsert_append_csv (ReadResult.ok (upsertOk dfOld dfNew).1) dfNew =
      Except.ok ((upsertOk dfOld dfNew).1, 0) ∧
    upsert_append_csv (ReadResult.ok dfNew) dfNew = Except.ok (dfNew, 0) := by
  constructor
  · have h := upsertOk_of_all_mem (upsertOk dfOld dfNew).1 dfNew
      (fun r hr => mem_ids_upsertOk dfOld dfNew r hr)
    simp only [upsert_append_csv, h]
  · have h := upsertOk_of_all_mem dfNew dfNew
      (fun r hr => List.mem_map_of_mem Row.hashId hr)
    simp only [upsert_append_csv, h]

/-- **C5** (counterexample).  A run whose diff is empty does *not* refresh
the snapshot: with previous snapshot `{"a","b"}` and a current dataset
whose only identity is `"a"`, the code returns before
`save_current_hashes`, so the snapshot keeps the stale identity `"b"`,
which is not an identity of the current public dataset. -/
theorem c5_counterexample :
    postSocialMain (some [exRowA]) ["a", "b"] = ([], ["a", "b"]) ∧
    "b" ∉ [exRowA].map Row.hashId := by
  decide

/-- **C5 as amended**: when every current identity is already in the
previous snapshot (`new_ids` empty) the run notifies nothing and leaves
the snapshot file *unchanged* (it is not refreshed to the current set);
only when the diff is non-empty does the snapshot become exactly the set
of all current identities (not just the up-to-3 notified ones). -/
theorem c5_snapshot_refresh (df : List Row) (previous : List String) :
    ((∀ x ∈ df.map Row.hashId, x ∈ previous) →
      postSocialMain (some df) previous = ([], previous)) ∧
    ((∃ x ∈ df.map Row.hashId, x ∉ previous) →
      ∀ hid, hid ∈ (postSocialMain (some df) previous).2 ↔
        hid ∈ df.map Row.hashId) := by
  constructor
  · intro hall
    have hnil : (df.map Row.hashId).dedup.filter (fun x => x ∉ previous) = [] := by
      rw [List.filter_eq_nil_iff]
      intro x hx
      have hx' : x ∈ df.map Row.hashId := List.mem_dedup.mp hx
      exact fun hdec => (of_decide_eq_true hdec) (hall x hx')
    simp only [postSocialMain]
    rw [hnil]
    rfl
  · rintro ⟨x, hx, hnx⟩ hid
    have hfil : x ∈ (df.map Row.hashId).dedup.filter (fun y => y ∉ previous) :=
      List.mem_filter.mpr ⟨List.mem_dedup.mpr hx, decide_eq_true hnx⟩
    have hne :
        ¬ ((df.map Row.hashId).dedup.filter (fun y => y ∉ previous)).isEmpty = true := by
      intro hemp
      rw [List.isEmpty_iff] at hemp
      rw [hemp] at hfil
      exact List.not_mem_nil x hfil
    simp only [postSocialMain]
    rw [if_neg hne]
    exact List.mem_dedup

/-- Witness for `c5_snapshot_refresh`: an empty diff leaves the snapshot
`["a"]` as it was; a non-empty diff makes the new identity `"b"` part of
the refreshed snapshot. -/
theorem c5_snapshot_refresh_witness :
    (postSocialMain (some [exRowA]) ["a"] = ([], ["a"])) ∧
    ("b" ∈ (postSocialMain (some [exRowA, exRowB]) ["a"]).2 ↔
      "b" ∈ [exRowA, exRowB].map Row.hashId) :=
  ⟨(c5_snapshot_refresh [exRowA] ["a"]).1 (by decide),
   (c5_snapshot_refresh [exRowA, exRowB] ["a"]).2 (by decide) "b"⟩

/-- `List.findIdx?` finds nothing when the predicate holds nowhere
(stated for every start index of the accumulator-passing definition). -/
theorem findIdx?_none_of_all {α : Type} (p : α → Bool) :
    ∀ (l : List α) (i : Nat), (∀ x ∈ l, p x = false) →
      List.findIdx? p l i = none := by
  intro l
  induction l with
  | nil => intro i _; rfl
  | cons a t ih =>
      intro i hall
      have ha : p a = false := hall a (List.mem_cons_self a t)
      simp only [List.findIdx?, ha]
      exact ih (i + 1) (fun x hx => hall x (List.mem_cons_of_mem a hx))

/-- `List.findSome?` returns `none` when `f` fails on every element. -/
theorem findSome?_none_of_all {α β : Type} (f : α → Option β) :
    ∀ l : List α, (∀ x ∈ l, f x = none) → l.findSome? f = none := by
  intro l
  induction l with
  | nil => intro _; rfl
  | cons a t ih =>
      intro hall
      rw [List.findSome?_cons, hall a (List.mem_cons_self a t)]
      exact ih (fun x hx => hall x (List.mem_cons_of_mem a hx))

/-- **C8** (counterexample).  A sheet none of whose first 20 rows contains
both a company token and a notice token is *not* processed with row 0 as a
fallback header: `find_header_and_data` rejects it (`None` plus an error
string), and with every sheet rejected the sheet-selection loop of
`scrape_ca.main` leaves `df_clean = None`, aborting the run. -/
theorem c8_counterexample :
    find_header_and_data exSheetNoHeader = none ∧
    selectSheet [exSheetNoHeader] = none := by
  decide

/-- **C8 as amended**: if no row among the first 20 of any sheet contains
both tokens, every sheet is rejected and the whole run aborts with no
output (`"CRITICAL: No valid data found in any sheet."`) — there is no
degraded row-0-as-header mode. -/
theorem c8_no_header_rejects (sheets : List Sheet)
    (hall : ∀ df ∈ sheets, ∀ row ∈ df.take 20, isHeaderRow row = false) :
    selectSheet sheets = none ∧
    ∀ df ∈ sheets, find_header_and_data df = none := by
  have hone : ∀ df ∈ sheets, find_header_and_data df = none := by
    intro df hdf
    simp only [find_header_and_data]
    rw [findIdx?_none_of_all isHeaderRow (df.take 20) 0 (hall df hdf)]
  exact ⟨findSome?_none_of_all find_header_and_data sheets hone, hone⟩

/-- Witness for `c8_no_header_rejects` on a concrete token-free sheet. -/
theorem c8_no_header_rejects_witness :
    (∀ df ∈ [exSheetNoHeader], ∀ row ∈ df.take 20, isHeaderRow row = false) ∧
    selectSheet [exSheetNoHeader] = none :=
  ⟨by decide, (c8_no_header_rejects [exSheetNoHeader] (by decide)).1⟩

/-- `drop_duplicates(keep="last")` characterized by filtering: the rows of
a given identity that survive are exactly the last occurrence of that
identity in the input (or none, when the identity is absent). -/
theorem dropDupKeepLast_filter (hid : String) :
    ∀ l : List Row,
      (dropDupKeepLast l).filter (fun x => x.hashId == hid) =
      (l.reverse.find? (fun x => x.hashId == hid)).toList := by
  intro l
  induction l with
  | nil => rfl
  | cons r rest ih =>
      by_cases hdup : r.hashId ∈ rest.map Row.hashId
      · have hstep : dropDupKeepLast (r :: rest) = dropDupKeepLast rest := by
          simp only [dropDupKeepLast]
          rw [if_pos hdup]
        rw [hstep, ih, List.reverse_cons, List.find?_append]
        cases hpr : r.hashId == hid with
        | true =>
            have hex : ∃ x, x ∈ rest.reverse ∧ (x.hashId == hid) = true := by
              rcases List.mem_map.mp hdup with ⟨x, hx, hxid⟩
              exact ⟨x, List.mem_reverse.mpr hx, by rw [hxid]; exact hpr⟩
            obtain ⟨y, hy⟩ :=
              Option.isSome_iff_exists.mp (List.find?_isSome.mpr hex)
            rw [hy]
            rfl
        | false =>
            have hnone : [r].find? (fun x => x.hashId == hid) = none := by
              simp [List.find?, hpr]
            rw [hnone, Option.or_none]
      · have hstep : dropDupKeepLast (r :: rest) = r :: dropDupKeepLast rest := by
          simp only [dropDupKeepLast]
          rw [if_neg hdup]
        rw [hstep, List.reverse_cons, List.find?_append]
        cases hpr : r.hashId == hid with
        | true =>
            have hnone : rest.reverse.find? (fun x => x.hashId == hid) = none := by
              rw [List.find?_eq_none]
              intro x hx hpx
              apply hdup
              have hxid : x.hashId = hid := by
                have := hpx
                simpa [beq_iff_eq] using this
              have hrid : r.hashId = hid := by simpa [beq_iff_eq] using hpr
              rw [hrid, ← hxid]
              exact List.mem_map_of_mem Row.hashId (List.mem_reverse.mp hx)
            have hfil :
                List.filter (fun x => x.hashId == hid) (r :: dropDupKeepLast rest) =
                r :: List.filter (fun x => x.hashId == hid) (dropDupKeepLast rest) := by
              simp [List.filter_cons, hpr]
            rw [hfil, ih, hnone]
            simp [List.find?, hpr]
        | false =>
            have hfil :
                List.filter (fun x => x.hashId == hid) (r :: dropDupKeepLast rest) =
                List.filter (fun x => x.hashId == hid) (dropDupKeepLast rest) := by
              simp [List.filter_cons, hpr]
            have hnone : [r].find? (fun x => x.hashId == hid) = none := by
              simp [List.find?, hpr]
            rw [hfil, ih, hnone, Option.or_none]

/-- The sort step of the aggregator is a permutation of its input. -/
theorem sortValuesDescNd_perm (l : List Row) :
    List.Perm (sortValuesDescNd l) l := by
  simp only [sortValuesDescNd]
  have h1 :
      List.Perm
        (List.insertionSort (fun a b => ndTotal b ≤ ndTotal a)
          (l.filter (fun r => (ndKey r).isSome)))
        (l.filter (fun r => (ndKey r).isSome)) :=
    List.perm_insertionSort _ _
  have h2 : l.filter (fun r => (ndKey r).isNone) =
      l.filter (fun r => !(ndKey r).isSome) := by
    apply List.filter_congr
    intro r _
    cases ndKey r <;> rfl
  refine (h1.append_right _).trans ?_
  rw [h2]
  exact List.filter_append_perm _ l

/-- **C3** (counterexample).  Two stores sharing identity `"b"`: the
aggregate keeps the *last* occurrence (`exRowB2`, from the second store),
not the first occurrence (`exRowB`) as the claim states
(`drop_duplicates(..., keep="last")`). -/
theorem c3_counterexample :
    buildAggregate [[exRowB], [exRowB2]] = [exRowB2] ∧ exRowB2 ≠ exRowB := by
  decide

/-- **C3 as amended**: the aggregate built from any collection of stores
contains each identity present in the concatenated normalized union
exactly once, and the retained row is the *last* occurrence of that
identity in the concatenated union (keep-last de-duplication). -/
theorem c3_aggregate_keeps_last (stores : List (List Row)) (hid : String)
    (r : Row)
    (hfind :
      ((((stores.filter (fun s => ¬ s.isEmpty)).map normalize_df).flatten).reverse.find?
          (fun x => x.hashId == hid)) = some r) :
    (buildAggregate stores).filter (fun x => x.hashId == hid) = [r] := by
  by_cases hp : ((stores.filter (fun s => ¬ s.isEmpty)).map normalize_df).isEmpty = true
  · exfalso
    rw [List.isEmpty_iff] at hp
    rw [hp] at hfind
    simp at hfind
  · have hagg : buildAggregate stores =
        sortValuesDescNd (dropDupKeepLast
          (((stores.filter (fun s => ¬ s.isEmpty)).map normalize_df).flatten)) := by
      simp only [buildAggregate]
      rw [if_neg hp]
    have hbase :
        (dropDupKeepLast
            (((stores.filter (fun s => ¬ s.isEmpty)).map normalize_df).flatten)).filter
          (fun x => x.hashId == hid) = [r] := by
      rw [dropDupKeepLast_filter, hfind]
      rfl
    have hperm :=
      (sortValuesDescNd_perm (dropDupKeepLast
        (((stores.filter (fun s => ¬ s.isEmpty)).map normalize_df).flatten))).filter
        (fun x => x.hashId == hid)
    rw [hbase] at hperm
    rw [hagg]
    exact List.perm_singleton.mp hperm

/-- Witness for `c3_aggregate_keeps_last` at two concrete stores sharing
identity `"b"`. -/
theorem c3_aggregate_keeps_last_witness :
    (((([[exRowB], [exRowB2]].filter (fun s => ¬ s.isEmpty)).map
          normalize_df).flatten).reverse.find? (fun x => x.hashId == "b")) =
        some exRowB2 ∧
    (buildAggregate [[exRowB], [exRowB2]]).filter (fun x => x.hashId == "b") =
      [exRowB2] :=
  ⟨by decide, c3_aggregate_keeps_last [[exRowB], [exRowB2]] "b" exRowB2 (by decide)⟩

/-- De-duplication only drops rows: every survivor was in the input. -/
theorem mem_of_mem_dropDupKeepLast {r : Row} :
    ∀ {l : List Row}, r ∈ dropDupKeepLast l → r ∈ l := by
  intro l
  induction l with
  | nil => intro h; exact absurd h (List.not_mem_nil r)
  | cons a t ih =>
      intro h
      by_cases hdup : a.hashId ∈ t.map Row.hashId
      · have hstep : dropDupKeepLast (a :: t) = dropDupKeepLast t := by
          simp only [dropDupKeepLast]
          rw [if_pos hdup]
        rw [hstep] at h
        exact List.mem_cons_of_mem a (ih h)
      · have hstep : dropDupKeepLast (a :: t) = a :: dropDupKeepLast t := by
          simp only [dropDupKeepLast]
          rw [if_neg hdup]
        rw [hstep] at h
        rcases List.mem_cons.mp h with h | h
        · exact h ▸ List.mem_cons_self a t
        · exact List.mem_cons_of_mem a (ih h)

/-- In a concatenation of a block of `P`-rows followed by a block of
non-`P`-rows, every `P` position comes strictly before every non-`P`
position. -/
theorem append_pos_lt {α : Type} (P : α → Bool) (D U : List α)
    (hD : ∀ x ∈ D, P x = true) (hU : ∀ x ∈ U, P x = false) :
    ∀ i j, ∀ (hi : i < (D ++ U).length) (hj : j < (D ++ U).length),
      P ((D ++ U).get ⟨i, hi⟩) = true → P ((D ++ U).get ⟨j, hj⟩) = false →
      i < j := by
  intro i j hi hj hPi hPj
  have hiD : i < D.length := by
    by_contra hge
    push_neg at hge
    have hget : (D ++ U).get ⟨i, hi⟩ = U.get
        ⟨i - D.length, by
          have := hi
          rw [List.length_append] at this
          omega⟩ := by
      simp [List.get_eq_getElem, List.getElem_append_right hge]
    have hmem : (D ++ U).get ⟨i, hi⟩ ∈ U := by
      rw [hget]
      exact List.get_mem U _ _
    rw [hU _ hmem] at hPi
    exact Bool.false_ne_true hPi
  have hjD : D.length ≤ j := by
    by_contra hlt
    push_neg at hlt
    have hget : (D ++ U).get ⟨j, hj⟩ = D.get ⟨j, hlt⟩ := by
      simp [List.get_eq_getElem, List.getElem_append_left hlt]
    have hmem : (D ++ U).get ⟨j, hj⟩ ∈ D := by
      rw [hget]
      exact List.get_mem D _ _
    rw [hD _ hmem] at hPj
    exact Bool.false_ne_true hPj.symm
  omega

/-- **C4** (counterexample).  A store row with empty (unparseable)
`notice_date` is *not* excluded from the public dataset: the aggregate
built from a store containing `exRowBlank` (empty `notice_date`, non-empty
company) still contains that row — it is merely sorted last
(`# Sort newest first, blanks last`). -/
theorem c4_counterexample :
    exRowBlank.noticeDate = "" ∧
    buildAggregate [[exRowA, exRowBlank]] = [exRowA, exRowBlank] := by
  decide

/-- **C4 as amended**: a row with unparseable (empty → `NaT`)
`notice_date` that survives normalization and de-duplication is *retained*
in the public dataset, and every row with a parseable date is placed
strictly before every row without one (`na_position="last"`); the
per-source store is not touched by the aggregation pass (the aggregate is
a pure function of the store contents). -/
theorem c4_undated_retained (stores : List (List Row)) (r : Row)
    (hmem : r ∈ dropDupKeepLast
      (((stores.filter (fun s => ¬ s.isEmpty)).map normalize_df).flatten))
    (hkey : (ndKey r).isNone = true) :
    r ∈ buildAggregate stores ∧
    ∀ i j, ∀ (hi : i < (buildAggregate stores).length)
        (hj : j < (buildAggregate stores).length),
      (ndKey ((buildAggregate stores).get ⟨i, hi⟩)).isSome = true →
      (ndKey ((buildAggregate stores).get ⟨j, hj⟩)).isNone = true → i < j := by
  have hp : ¬ ((stores.filter (fun s => ¬ s.isEmpty)).map normalize_df).isEmpty = true := by
    intro hemp
    rw [List.isEmpty_iff] at hemp
    rw [hemp] at hmem
    exact absurd hmem (List.not_mem_nil r)
  have hagg : buildAggregate stores =
      sortValuesDescNd (dropDupKeepLast
        (((stores.filter (fun s => ¬ s.isEmpty)).map normalize_df).flatten)) := by
    simp only [buildAggregate]
    rw [if_neg hp]
  set dd := dropDupKeepLast
    (((stores.filter (fun s => ¬ s.isEmpty)).map normalize_df).flatten) with hdd
  have hsplit : sortValuesDescNd dd =
      List.insertionSort (fun a b => ndTotal b ≤ ndTotal a)
        (dd.filter (fun x => (ndKey x).isSome)) ++
      dd.filter (fun x => (ndKey x).isNone) := rfl
  have hD : ∀ x ∈ List.insertionSort (fun a b => ndTotal b ≤ ndTotal a)
      (dd.filter (fun x => (ndKey x).isSome)), (ndKey x).isSome = true := by
    intro x hx
    have hx' : x ∈ dd.filter (fun x => (ndKey x).isSome) :=
      (List.perm_insertionSort _ _).mem_iff.mp hx
    exact (List.mem_filter.mp hx').2
  have hU : ∀ x ∈ dd.filter (fun x => (ndKey x).isNone),
      (fun x => (ndKey x).isSome) x = false := by
    intro x hx
    have h := (List.mem_filter.mp hx).2
    have hn : ndKey x = none := Option.isNone_iff_eq_none.mp h
    simp [hn]
  constructor
  · rw [hagg, hsplit]
    exact List.mem_append_right _
      (List.mem_filter.mpr ⟨hmem, hkey⟩)
  · rw [hagg, hsplit]
    intro i j hi hj hPi hPj
    refine append_pos_lt (fun x => (ndKey x).isSome) _ _ hD hU i j hi hj hPi ?_
    have hn := Option.isNone_iff_eq_none.mp hPj
    rw [List.get_eq_getElem] at hn
    simp [hn]

/-- Witness for `c4_undated_retained`: the blank-dated row of the concrete
store is in the public dataset. -/
theorem c4_undated_retained_witness :
    exRowBlank ∈ dropDupKeepLast
      ((([[exRowA, exRowBlank]].filter (fun s => ¬ s.isEmpty)).map
          normalize_df).flatten) ∧
    exRowBlank ∈ buildAggregate [[exRowA, exRowBlank]] :=
  ⟨by decide,
   (c4_undated_retained [[exRowA, exRowBlank]] exRowBlank (by decide) (by decide)).1⟩

/-- Character-class substitution always lands inside `[a-z0-9\s]`. -/
theorem classChar_class (c : Char) :
    (isLowerAlnum (classChar c) || isSpacePy (classChar c)) = true := by
  simp only [classChar]
  by_cases h : (isLowerAlnum c || isSpacePy c) = true
  · rw [if_pos h]
    exact h
  · rw [if_neg h]
    decide

/-- Whitespace collapsing maps a `[a-z0-9\s]` string into `[a-z0-9 ]`. -/
theorem collapseWs_chars :
    ∀ (l : List Char) (b : Bool),
      (∀ c ∈ l, (isLowerAlnum c || isSpacePy c) = true) →
      ∀ c ∈ collapseWs b l, isLowerAlnum c = true ∨ c = ' ' := by
  intro l
  induction l with
  | nil =>
      intro b _ c hc
      exact absurd hc (List.not_mem_nil c)
  | cons a t ih =>
      intro b hall c hc
      by_cases hsp : isSpacePy a = true
      · cases b with
        | true =>
            rw [show collapseWs true (a :: t) = collapseWs true t from by
                  simp [collapseWs, hsp]] at hc
            exact ih true (fun x hx => hall x (List.mem_cons_of_mem a hx)) c hc
        | false =>
            rw [show collapseWs false (a :: t) = ' ' :: collapseWs true t from by
                  simp [collapseWs, hsp]] at hc
            rcases List.mem_cons.mp hc with h | h
            · exact Or.inr h
            · exact ih true (fun x hx => hall x (List.mem_cons_of_mem a hx)) c h
      · have hna : isLowerAlnum a = true := by
          rcases Bool.or_eq_true_iff.mp (hall a (List.mem_cons_self a t)) with h | h
          · exact h
          · exact absurd h hsp
        rw [show collapseWs b (a :: t) = a :: collapseWs false t from by
              cases b <;> simp [collapseWs, hsp]] at hc
        rcases List.mem_cons.mp hc with h | h
        · exact Or.inl (h ▸ hna)
        · exact ih false (fun x hx => hall x (List.mem_cons_of_mem a hx)) c h

/-- Whitespace collapsing leaves no two adjacent spaces, and when the
collapser is inside a run its output never starts with a space. -/
theorem collapseWs_props :
    ∀ l : List Char,
      List.Chain' (fun a b => ¬(a = ' ' ∧ b = ' ')) (collapseWs false l) ∧
      List.Chain' (fun a b => ¬(a = ' ' ∧ b = ' ')) (collapseWs true l) ∧
      ∀ c, (collapseWs true l).head? = some c → isSpacePy c = false := by
  intro l
  induction l with
  | nil =>
      refine ⟨List.chain'_nil, List.chain'_nil, ?_⟩
      intro c hc
      exact absurd hc (by simp [collapseWs])
  | cons a t ih =>
      obtain ⟨ihF, ihT, ihH⟩ := ih
      by_cases hsp : isSpacePy a = true
      · have e1 : collapseWs false (a :: t) = ' ' :: collapseWs true t := by
          simp [collapseWs, hsp]
        have e2 : collapseWs true (a :: t) = collapseWs true t := by
          simp [collapseWs, hsp]
        refine ⟨?_, by rw [e2]; exact ihT, by rw [e2]; exact ihH⟩
        rw [e1, List.chain'_cons']
        refine ⟨?_, ihT⟩
        intro y hy
        have hhd : (collapseWs true t).head? = some y := Option.mem_def.mp hy
        have hyns := ihH y hhd
        intro hpair
        rw [hpair.2] at hyns
        exact absurd hyns (by decide)
      · have hspf : isSpacePy a = false := by
          cases hval : isSpacePy a
          · rfl
          · exact absurd hval hsp
        have e3 : ∀ b, collapseWs b (a :: t) = a :: collapseWs false t := by
          intro b
          cases b <;> simp [collapseWs, hsp]
        have hchain : List.Chain' (fun x y => ¬(x = ' ' ∧ y = ' '))
            (a :: collapseWs false t) := by
          rw [List.chain'_cons']
          refine ⟨?_, ihF⟩
          intro y _ hpair
          rw [hpair.1] at hspf
          exact absurd hspf (by decide)
        refine ⟨by rw [e3 false]; exact hchain, by rw [e3 true]; exact hchain, ?_⟩
        intro c hc
        rw [e3 true, List.head?_cons] at hc
        injection hc with hac
        rw [← hac]
        exact hspf

/-- The head of `dropWhile p` never satisfies `p`. -/
theorem head?_dropWhile {α : Type} (p : α → Bool) :
    ∀ (l : List α) (c : α), (l.dropWhile p).head? = some c → p c = false := by
  intro l
  induction l with
  | nil =>
      intro c hc
      exact absurd hc (by simp)
  | cons a t ih =>
      intro c hc
      by_cases hp : p a = true
      · rw [show (a :: t).dropWhile p = t.dropWhile p from by
              simp [List.dropWhile_cons, hp]] at hc
        exact ih c hc
      · rw [show (a :: t).dropWhile p = a :: t from by
              simp [List.dropWhile_cons, hp]] at hc
        rw [List.head?_cons] at hc
        injection hc with hac
        cases hval : p a
        · rw [← hac]
          exact hval
        · exact absurd hval hp

/-- The last element of a list equals the last element of any non-empty
suffix. -/
theorem getLast?_of_suffix {α : Type} {l₁ l₂ : List α}
    (h : l₁ <:+ l₂) (hne : l₁ ≠ []) : l₂.getLast? = l₁.getLast? := by
  obtain ⟨t, rfl⟩ := h
  exact List.getLast?_append_of_ne_nil t hne

/-- Stripping only removes characters. -/
theorem mem_pyStrip {c : Char} {l : List Char} (h : c ∈ pyStrip l) : c ∈ l := by
  simp only [pyStrip] at h
  rw [List.mem_reverse] at h
  have h2 : c ∈ (l.dropWhile isSpacePy).reverse :=
    (List.dropWhile_sublist _).subset h
  rw [List.mem_reverse] at h2
  exact (List.dropWhile_sublist _).subset h2

/-- Stripping preserves adjacency constraints (for a symmetric relation). -/
theorem pyStrip_chain (R : Char → Char → Prop)
    (hsymm : ∀ a b, R a b → R b a) :
    ∀ l : List Char, List.Chain' R l → List.Chain' R (pyStrip l) := by
  intro l hl
  have h1 : List.Chain' R (l.dropWhile isSpacePy) :=
    hl.suffix (List.dropWhile_suffix isSpacePy)
  have h2 : List.Chain' R (l.dropWhile isSpacePy).reverse :=
    (List.chain'_reverse).mpr (h1.imp (fun a b hab => hsymm a b hab))
  have h3 : List.Chain' R ((l.dropWhile isSpacePy).reverse.dropWhile isSpacePy) :=
    h2.suffix (List.dropWhile_suffix isSpacePy)
  exact (List.chain'_reverse).mpr (h3.imp (fun a b hab => hsymm a b hab))

/-- The first character of a stripped string is not whitespace. -/
theorem pyStrip_head (l : List Char) (c : Char)
    (hc : (pyStrip l).head? = some c) : isSpacePy c = false := by
  simp only [pyStrip] at hc
  rw [List.head?_reverse] at hc
  have hBne : (l.dropWhile isSpacePy).reverse.dropWhile isSpacePy ≠ [] := by
    intro hB
    rw [hB] at hc
    exact Option.noConfusion hc
  have hsuf : (l.dropWhile isSpacePy).reverse.dropWhile isSpacePy <:+
      (l.dropWhile isSpacePy).reverse := List.dropWhile_suffix isSpacePy
  have hlast := getLast?_of_suffix hsuf hBne
  rw [← hlast, List.getLast?_reverse] at hc
  exact head?_dropWhile isSpacePy l c hc

/-- The last character of a stripped string is not whitespace. -/
theorem pyStrip_getLast (l : List Char) (c : Char)
    (hc : (pyStrip l).getLast? = some c) : isSpacePy c = false := by
  simp only [pyStrip] at hc
  rw [List.getLast?_reverse] at hc
  exact head?_dropWhile isSpacePy _ c hc

/-- **C10** (confirmed).  `norm_text` is total at its public boundary:
`None` maps to `""`, and for every input string the result consists only of
lowercase letters, digits and spaces, with no two adjacent spaces and no
leading or trailing space (so interior separators are single spaces). -/
theorem c10_norm_text_shape :
    norm_text_opt none = "" ∧
    ∀ s : String,
      (∀ c ∈ (norm_text s).data, isLowerAlnum c = true ∨ c = ' ') ∧
      List.Chain' (fun a b => ¬(a = ' ' ∧ b = ' ')) (norm_text s).data ∧
      (∀ c, (norm_text s).data.head? = some c → c ≠ ' ') ∧
      (∀ c, (norm_text s).data.getLast? = some c → c ≠ ' ') := by
  refine ⟨rfl, ?_⟩
  intro s
  have hdata : (norm_text s).data =
      pyStrip (collapseWs false (s.data.map (fun c => classChar (pyLowerChar c)))) :=
    rfl
  have hmap : ∀ c ∈ s.data.map (fun c => classChar (pyLowerChar c)),
      (isLowerAlnum c || isSpacePy c) = true := by
    intro c hc
    rcases List.mem_map.mp hc with ⟨x, _, rfl⟩
    exact classChar_class (pyLowerChar x)
  refine ⟨?_, ?_, ?_, ?_⟩
  · intro c hc
    rw [hdata] at hc
    exact collapseWs_chars _ false hmap c (mem_pyStrip hc)
  · rw [hdata]
    refine pyStrip_chain _ ?_ _ (collapseWs_props _).1
    intro a b hab h
    exact hab ⟨h.2, h.1⟩
  · intro c hc
    rw [hdata] at hc
    have hns := pyStrip_head _ c hc
    intro hceq
    rw [hceq] at hns
    exact absurd hns (by decide)
  · intro c hc
    rw [hdata] at hc
    have hns := pyStrip_getLast _ c hc
    intro hceq
    rw [hceq] at hns
    exact absurd hns (by decide)

end Warn
